import Mathlib

/-!
Verification development for a small Bayesian-network inference script
(`bayesian.py`): a `BayesianNetwork` class offering d-separation queries,
exact inference by variable elimination over numpy-array factors, and
approximate inference by Gibbs sampling.

The Python code is embedded shallowly:

* numpy `ndarray`s become `NDArray` (a shape plus a flat row-major list of
  rationals); `np.multiply` with broadcasting, `np.sum` along an axis and
  tuple indexing are modelled exactly (float arithmetic is modelled by exact
  rational arithmetic).
* A Python call either returns normally (`Except.ok`) or raises an uncaught
  exception (`Except.error e` with `e` naming the exception kind).
* `normalize_factors` mutates `factors[0]['values']` in place; the embedding
  makes that state change explicit: the variable-elimination pipeline carries
  an origin tag on each working factor (modelling Python object identity) and
  returns the updated input factor list next to its result.
* Randomness (`np.random.choice`) is modelled by an explicit stream
  `u : Nat -> Rat` of uniform variates in `[0,1)`; each `choice` call consumes
  one variate and picks by inverse CDF.
-/

/-- Exception kinds. The first five are the exceptions the embedded Python
code can actually raise (`IndexError`, `ValueError`, `ZeroDivisionError`,
`networkx.NodeNotFound`, `networkx.NetworkXError`).  The last three are the
error taxonomy of the design spec (StructuralError, DegenerateDistributionError,
SamplingConfigurationError); they are never produced by the code and are
present only so that the spec's error-reporting claims can be stated. -/
inductive PyError where
  | indexError
  | valueError
  | zeroDivisionError
  | nodeNotFound
  | networkxError
  | structuralError
  | degenerateDistributionError
  | samplingConfigurationError
deriving DecidableEq, Repr

instance {ε α : Type} [DecidableEq ε] [DecidableEq α] : DecidableEq (Except ε α) := fun a b =>
  match a, b with
  | .ok x, .ok y =>
      if h : x = y then isTrue (by rw [h]) else isFalse (by intro hh; cases hh; exact h rfl)
  | .error x, .error y =>
      if h : x = y then isTrue (by rw [h]) else isFalse (by intro hh; cases hh; exact h rfl)
  | .ok _, .error _ => isFalse (by intro hh; cases hh)
  | .error _, .ok _ => isFalse (by intro hh; cases hh)

/-- A numpy `ndarray` of rationals: a shape and the flat data in C (row-major)
order; `data.length` is meant to be `shape.prod`. -/
structure NDArray where
  shape : List Nat
  data : List ℚ
deriving DecidableEq, Repr

/-- One entry of the broadcast shape: equal dims, or one of them is 1. -/
def bcast2 (a b : Nat) : Option Nat :=
  if a = b then some a else if a = 1 then some b else if b = 1 then some a else none

/-- Broadcast two reversed shape lists (least-significant dimension first). -/
def broadcastRev : List Nat → List Nat → Option (List Nat)
  | [], ys => some ys
  | xs, [] => some xs
  | x :: xs, y :: ys => do
      let d ← bcast2 x y
      let rest ← broadcastRev xs ys
      some (d :: rest)

/-- numpy broadcasting of two shapes (right-aligned). -/
def broadcastDims (xs ys : List Nat) : Option (List Nat) :=
  (broadcastRev xs.reverse ys.reverse).map List.reverse

/-- All multi-indices of a shape, in C order (first index slowest). -/
def allIdx : List Nat → List (List Nat)
  | [] => [[]]
  | d :: ds => (List.range d).flatMap (fun i => (allIdx ds).map (i :: ·))

/-- Row-major flat position of a multi-index in a shape. -/
def flatPos (shape ix : List Nat) : Nat :=
  (shape.zip ix).foldl (fun acc di => acc * di.1 + di.2) 0

/-- Entry of an array at a full multi-index (0 when out of range). -/
def getAt (a : NDArray) (ix : List Nat) : ℚ :=
  a.data.getD (flatPos a.shape ix) 0

/-- Entry of an array at a multi-index of a broadcast result shape: drop the
leading extra coordinates and clamp coordinates of size-1 dimensions to 0. -/
def bGet (a : NDArray) (ix : List Nat) : ℚ :=
  let tl := ix.drop (ix.length - a.shape.length)
  getAt a ((a.shape.zip tl).map (fun di => if di.1 = 1 then 0 else di.2))

/-- `np.multiply` with broadcasting; `none` models the `ValueError` numpy
raises on incompatible shapes. -/
def npMultiply (a b : NDArray) : Option NDArray :=
  (broadcastDims a.shape b.shape).map (fun sh =>
    ⟨sh, (allIdx sh).map (fun ix => bGet a ix * bGet b ix)⟩)

/-- `np.sum(a, axis=axis)`; `none` models the axis-out-of-range error. -/
def npSum (a : NDArray) (axis : Nat) : Option NDArray :=
  if axis < a.shape.length then
    let sh := a.shape.eraseIdx axis
    some ⟨sh, (allIdx sh).map (fun ix =>
      ((List.range (a.shape.getD axis 0)).map
        (fun j => getAt a (ix.insertIdx axis j))).sum)⟩
  else none

/-- `a[tuple(ix)]`: full indexing; `IndexError`-style failure when the tuple
length differs from the number of axes or a coordinate is out of bounds. -/
def npIndex (a : NDArray) (ix : List Nat) : Except PyError ℚ :=
  if ix.length = a.shape.length ∧ (a.shape.zip ix).all (fun di => di.2 < di.1) then
    .ok (getAt a ix)
  else .error .indexError

/-- A factor dict `{'variables': [...], 'values': ndarray}`.  (The first
field name is written with guillemets only because plain `variables` is a
reserved word in Lean; accesses are ordinary `f.variables`.) -/
structure Factor where
  «variables» : List String
  values : NDArray
deriving DecidableEq, Repr

/-- `multiply_factors`: starts from `factors[0]['values']`, multiplies the
remaining values arrays in elementwise (broadcasting), and keeps the FIRST
factor's variable list as the scope of the result.  An empty list raises
`IndexError` at `factors[0]`. -/
def multiply_factors (factors : List Factor) : Except PyError Factor :=
  match factors with
  | [] => .error .indexError
  | f :: rest => do
      let vals ← rest.foldlM (fun acc g =>
        match npMultiply acc g.values with
        | some r => Except.ok r
        | none => Except.error PyError.valueError) f.values
      .ok ⟨f.variables, vals⟩

/-- `sum_out_variable`: `axis = variables.index(var)` (ValueError when absent),
`np.sum` along that axis, and the scope keeps every variable `≠ var`. -/
def pyIndexFrom : List String → String → Nat → Except PyError Nat
  | [], _, _ => .error .valueError
  | a :: rest, x, k => if a = x then .ok k else pyIndexFrom rest x (k + 1)

/-- Python's `list.index(x)`. -/
def pyIndex (l : List String) (x : String) : Except PyError Nat :=
  pyIndexFrom l x 0

def sum_out_variable (f : Factor) (var : String) : Except PyError Factor := do
  let axis ← pyIndex f.variables var
  match npSum f.values axis with
  | some v => .ok ⟨f.variables.filter (fun w => w ≠ var), v⟩
  | none => .error .valueError

/-- `normalize_factors`: reads `factors[0]` (IndexError on an empty list),
and when the total is zero PRINTS a warning and returns the factor
unnormalized; otherwise divides every entry by the total.  (The in-place
character of the division is handled by the caller `VE_full` below.) -/
def normalize_factors (factors : List Factor) : Except PyError Factor :=
  match factors with
  | [] => .error .indexError
  | f :: _ =>
      let total := f.values.data.sum
      if total = 0 then .ok f
      else .ok ⟨f.variables, ⟨f.values.shape, f.values.data.map (· / total)⟩⟩

/-- A working factor of the elimination loop, tagged with its provenance:
`some i` means the dict is (by Python object identity) the `i`-th element of
the input `factors` list; `none` means it was freshly created by
`sum_out_variable`.  The tag models which dict the in-place final
normalization writes through. -/
structure TFactor where
  f : Factor
  origin : Option Nat
deriving DecidableEq, Repr

/-- The `relevant_factors` selection of `variable_elimination`: the scope
contains the query variable or some evidence key (only the KEYS of the
evidence dict are ever read by `variable_elimination`). -/
def relevantB (q : String) (ev : List String) (f : Factor) : Bool :=
  f.variables.contains q || ev.any (fun e => f.variables.contains e)

/-- Tag each relevant input factor with its index in the input list. -/
def tagFrom (q : String) (ev : List String) : Nat → List Factor → List TFactor
  | _, [] => []
  | k, f :: rest =>
      if relevantB q ev f then ⟨f, some k⟩ :: tagFrom q ev (k + 1) rest
      else tagFrom q ev (k + 1) rest

/-- `eliminate_variable` on tagged working factors: split off the factors
whose scope contains `var`, multiply them, sum `var` out, append the result
(tagged as fresh) to the untouched factors. -/
def eliminate_variable_t (factors : List TFactor) (var : String) :
    Except PyError (List TFactor) := do
  let relevant := factors.filter (fun t => t.f.variables.contains var)
  let new_factors := factors.filter (fun t => !(t.f.variables.contains var))
  let combined ← multiply_factors (relevant.map (·.f))
  let summed ← sum_out_variable combined var
  .ok (new_factors ++ [⟨summed, none⟩])

/-- The elimination loop `for var in <set>: ... = self.eliminate_variable(...)`,
with the iteration order of the Python set passed in explicitly. -/
def elimLoopT (order : List String) (L : List TFactor) : Except PyError (List TFactor) :=
  order.foldlM eliminate_variable_t L

/-- One concrete enumeration of `set(chain(*scopes)) - {query} - set(evidence)`.
CPython's set iteration order is an implementation detail; the theorems below
quantify over, or enumerate, the possible orders wherever the order matters. -/
def elimVars (relevant : List Factor) (q : String) (ev : List String) : List String :=
  ((relevant.map (·.variables)).flatten.dedup).filter (fun v => v ≠ q && !(ev.contains v))

/-- `variable_elimination`, with the in-place mutation done by
`normalize_factors` (`factors[0]['values'] /= total`) made explicit: the call
returns the result factor TOGETHER WITH the input factor list as it stands
after the call (the surviving working factor, when it is an input dict, has
been normalized in place; on the zero-total path the code only prints a
warning and nothing is written). -/
def VE_full (fs : List Factor) (q : String) (ev : List String) (order : List String) :
    Except PyError (Factor × List Factor) := do
  let L ← elimLoopT order (tagFrom q ev 0 fs)
  match L with
  | [] => .error .indexError
  | t :: _ =>
      let total := t.f.values.data.sum
      if total = 0 then .ok (t.f, fs)
      else
        let nf : Factor := ⟨t.f.variables, ⟨t.f.values.shape, t.f.values.data.map (· / total)⟩⟩
        match t.origin with
        | none => .ok (nf, fs)
        | some i => .ok (nf, fs.set i nf)

/-- `variable_elimination` with the canonical order enumeration. -/
def variable_elimination (fs : List Factor) (q : String) (ev : List String) :
    Except PyError (Factor × List Factor) :=
  VE_full fs q ev (elimVars (fs.filter (relevantB q ev)) q ev)

/-- Matrix entry `A[i][j]` (0 outside the matrix). -/
def entry (A : List (List Int)) (i j : Nat) : Int := (A.getD i []).getD j 0

/-- Directed edge of `nx.DiGraph(adjacency_matrix)`: any nonzero entry. -/
def adjB (A : List (List Int)) (i j : Nat) : Bool := entry A i j != 0

/-- Adjacency of `nx.moral_graph`: both orientations of each directed edge,
plus a marriage edge between every two distinct parents of a common child. -/
def moralB (A : List (List Int)) (i j : Nat) : Bool :=
  adjB A i j || adjB A j i ||
    ((List.range A.length).any (fun k => decide (i ≠ j) && adjB A i k && adjB A j k))

/-- The moral graph after `remove_nodes_from(Z)`: both endpoints must survive. -/
def restrictedB (A : List (List Int)) (Z : List Nat) (i j : Nat) : Bool :=
  moralB A i j && !(Z.contains i) && !(Z.contains j)

/-- All lists of the given length over `{0, ..., n-1}`. -/
def listsLen (n : Nat) : Nat → List (List Nat)
  | 0 => [[]]
  | k + 1 => (List.range n).flatMap (fun a => (listsLen n k).map (a :: ·))

/-- All lists of length at most `n` over `{0, ..., n-1}`. -/
def pathsUpTo (n : Nat) : List (List Nat) := (List.range (n + 1)).flatMap (listsLen n)

/-- `p` is a walk from `x` to `y` in the graph given by `adj`. -/
def walkProp (adj : Nat → Nat → Bool) (x y : Nat) (p : List Nat) : Prop :=
  p.head? = some x ∧ p.getLast? = some y ∧ List.Chain' (fun a b => adj a b = true) p

instance (adj : Nat → Nat → Bool) (x y : Nat) (p : List Nat) :
    Decidable (walkProp adj x y p) := by
  unfold walkProp; infer_instance

/-- `nx.has_path` on an `n`-node graph: some walk joins `x` and `y`.  Walks
of at most `n` nodes suffice: two connected nodes of an `n`-node graph are
joined by a simple path, which visits at most `n` distinct nodes. -/
def hasPathB (adj : Nat → Nat → Bool) (n x y : Nat) : Bool :=
  decide (∃ p ∈ pathsUpTo n, walkProp adj x y p)

/-- `d_separation` after name resolution: `moral_graph`, `remove_nodes_from(Z)`,
`not has_path(X, Y)`.  `nx.has_path` raises `NodeNotFound` when either
endpoint is not a node of the reduced graph (in particular when it was
removed as a member of `Z`). -/
def d_separation_idx (A : List (List Int)) (X Y : Nat) (Z : List Nat) :
    Except PyError Bool :=
  if X < A.length ∧ X ∉ Z then
    if Y < A.length ∧ Y ∉ Z then
      .ok (!(hasPathB (restrictedB A Z) A.length X Y))
    else .error .nodeNotFound
  else .error .nodeNotFound

/-- `d_separation(X, Y, Z)` for string arguments: `self.nodes.index` raises
`ValueError` for an unknown name (X is resolved first, then Y, then the
elements of Z), then the moralize-remove-connectivity test runs on indices. -/
def d_separation (A : List (List Int)) (nodes : List String) (X Y : String)
    (Z : List String) : Except PyError Bool := do
  let xi ← pyIndex nodes X
  let yi ← pyIndex nodes Y
  let zi ← Z.mapM (pyIndex nodes)
  d_separation_idx A xi yi zi

/-- Python `==` between an int (a node of `self.graph`) and a str (an entry
of a factor's `'variables'` list) is always `False`; `sample_var`'s blanket
test compares exactly these two types. -/
def pyIntStrEq (_n : Nat) (_s : String) : Bool := false

/-- `set(self.graph.predecessors(var_idx)) | set(self.graph.successors(var_idx))`
as a duplicate-free-enough list (it is only ever consumed by `any`). -/
def sample_var_blanket (A : List (List Int)) (var_idx : Nat) : List Nat :=
  (List.range A.length).filter (fun i => adjB A i var_idx || adjB A var_idx i)

/-- `[f for f in self.factors if any(n in f['variables'] for n in blanket)]`:
an int `n` is never `==` a string scope entry, so the test is `pyIntStrEq`. -/
def sample_var_relevant (A : List (List Int)) (factors : List Factor) (var_idx : Nat) :
    List Factor :=
  factors.filter (fun f =>
    (sample_var_blanket A var_idx).any (fun n => f.variables.any (fun s => pyIntStrEq n s)))

/-- The loop `for factor in relevant_factors: prob_dist *= factor['values'][index]`
with `index = tuple(state[v] for v in factor['variables'])`: `prob_dist`
starts as `np.ones(2)` and each scalar entry multiplies both components. -/
def sample_var_probs (factors : List Factor) (state : String → Nat) :
    Except PyError (ℚ × ℚ) :=
  factors.foldlM (fun pd f => do
    let v ← npIndex f.values (f.variables.map state)
    Except.ok (pd.1 * v, pd.2 * v)) (1, 1)

/-- `np.random.choice([0, 1], p=[p0, 1-p0])` driven by one uniform variate. -/
def npChoice2 (p0 : ℚ) (u : ℚ) : Nat := if u < p0 then 0 else 1

/-- `sample_var(var, state)`.  Failure modes of the original: `ValueError`
from `self.nodes.index(var)`, `NetworkXError` from `predecessors` when
`var_idx` is not a node of the graph, `IndexError` from factor indexing, and
`ValueError` from `np.random.choice` when `prob_dist` sums to zero (the
division then yields NaNs, which `choice` rejects). -/
def sample_var (A : List (List Int)) (nodes : List String) (factors : List Factor)
    (var : String) (state : String → Nat) (u : ℚ) : Except PyError Nat := do
  let var_idx ← pyIndex nodes var
  if var_idx < A.length then
    let pd ← sample_var_probs (sample_var_relevant A factors var_idx) state
    let s := pd.1 + pd.2
    if s = 0 then .error .valueError
    else .ok (npChoice2 (pd.1 / s) u)
  else .error .networkxError

/-- `state = {var: np.random.choice([0, 1]) for var in self.nodes}`: the
`k`-th node consumes variate `u k`.  The sampler state is modelled as a total
function; the Python dict holds exactly the node names (plus evidence keys),
and every lookup the embedded code performs is at such a key. -/
def initState (nodes : List String) (u : Nat → ℚ) : String → Nat :=
  nodes.enum.foldl (fun s kv => Function.update s kv.2 (npChoice2 (1/2) (u kv.1))) (fun _ => 0)

/-- `for var, val in evidence.items(): state[var] = val`, as a pointwise
overwrite of the freshly initialized state. -/
def evidenceInit (nodes : List String) (ev : String → Option Nat) (u : Nat → ℚ) :
    String → Nat :=
  fun v => (ev v).getD (initState nodes u v)

/-- The inner sweep `for var in self.nodes: if var not in evidence:
state[var] = self.sample_var(var, state)`, threading the variate counter. -/
def sweepVars (A : List (List Int)) (nodes : List String) (factors : List Factor)
    (ev : String → Option Nat) (u : Nat → ℚ) :
    List String → (String → Nat) → Nat → Except PyError ((String → Nat) × Nat)
  | [], s, k => .ok (s, k)
  | v :: rest, s, k =>
      if (ev v).isSome then sweepVars A nodes factors ev u rest s k
      else do
        let val ← sample_var A nodes factors v s (u k)
        sweepVars A nodes factors ev u rest (Function.update s v val) (k + 1)

/-- The outer loop `for i in range(num_samples + burn_in)`, appending
`state[query_var]` to `samples` once `i >= burn_in`. -/
def gibbsLoop (A : List (List Int)) (nodes : List String) (factors : List Factor)
    (ev : String → Option Nat) (u : Nat → ℚ) (q : String) (burn_in : Nat) :
    Nat → Nat → (String → Nat) → Nat → List Nat → Except PyError (List Nat)
  | _, 0, _, _, acc => .ok acc
  | i, r + 1, s, k, acc => do
      let sk ← sweepVars A nodes factors ev u nodes s k
      gibbsLoop A nodes factors ev u q burn_in (i + 1) r sk.1 sk.2
        (if burn_in ≤ i then acc ++ [sk.1 q] else acc)

/-- `gibbs_sampling(query_var, evidence, num_samples, burn_in)`: initialize,
sweep `num_samples + burn_in` times, return `sum(samples) / len(samples)`
(`ZeroDivisionError` when no sample was collected). -/
def gibbs_sampling (A : List (List Int)) (nodes : List String) (factors : List Factor)
    (query_var : String) (ev : String → Option Nat) (num_samples burn_in : Nat)
    (u : Nat → ℚ) : Except PyError ℚ := do
  let s0 := evidenceInit nodes ev u
  let samples ← gibbsLoop A nodes factors ev u query_var burn_in
    0 (num_samples + burn_in) s0 nodes.length []
  if samples.length = 0 then .error .zeroDivisionError
  else .ok ((samples.map (Nat.cast : Nat → ℚ)).sum / samples.length)

/-- The adjacency matrix hardcoded at the bottom of `bayesian.py` (note the
nonzero diagonal entry `[0][0]`, a self-loop on node 0). -/
def demoA : List (List Int) :=
  [[1, 0, 0, 0, 0],
   [1, 0, 0, 0, 0],
   [0, 0, 0, 1, 1],
   [0, 0, 0, 0, 0],
   [0, 0, 0, 0, 0]]

def demoNodes : List String :=
  ["Burglary", "Earthquake", "Alarm", "JohnCalls", "MaryCalls"]

/-- The CPT factor list of `bayesian.py` (row-major data). -/
def demoFactors : List Factor :=
  [⟨["Burglary"], ⟨[2], [99/100, 1/100]⟩⟩,
   ⟨["Earthquake"], ⟨[2], [98/100, 2/100]⟩⟩,
   ⟨["Burglary", "Earthquake", "Alarm"],
     ⟨[2, 2, 2], [999/1000, 1/1000, 71/100, 29/100, 6/100, 94/100, 5/100, 95/100]⟩⟩,
   ⟨["Alarm", "JohnCalls"], ⟨[2, 2], [95/100, 5/100, 1/10, 9/10]⟩⟩,
   ⟨["Alarm", "MaryCalls"], ⟨[2, 2], [99/100, 1/100, 3/10, 7/10]⟩⟩]

/-- The evidence dict `{'JohnCalls': 1, 'MaryCalls': 1}` as a partial map. -/
def demoEv : String → Option Nat :=
  fun v => if v = "JohnCalls" then some 1 else if v = "MaryCalls" then some 1 else none

/-- Its key list, as `variable_elimination` consumes it. -/
def demoEvKeys : List String := ["JohnCalls", "MaryCalls"]

/-- A three-factor network over `Q, A, B` on which the two enumeration orders
of the elimination set `{A, B}` drive `variable_elimination` to different
final answers. -/
def c5Factors : List Factor :=
  [⟨["Q", "A"], ⟨[2, 2], [1, 2, 3, 4]⟩⟩,
   ⟨["Q", "B"], ⟨[2, 2], [5, 6, 7, 8]⟩⟩,
   ⟨["Q", "A", "B"], ⟨[2, 2, 2], [1, 1, 1, 1, 1, 1, 1, 1]⟩⟩]

/-- A concrete sampler state matching the evidence `demoEv` (all other
variables 0), used to instantiate the Gibbs-sweep invariant. -/
def c10Start : String → Nat :=
  fun v => if v = "JohnCalls" then 1 else if v = "MaryCalls" then 1 else 0

/-- The factor `variable_elimination` returns on the demo query
`P(Alarm | JohnCalls=1, MaryCalls=1)`: the in-place-normalized
`['Alarm', 'JohnCalls']` factor (note the un-eliminated evidence axis). -/
def demoVEResult : Factor :=
  ⟨["Alarm", "JohnCalls"], ⟨[2, 2], [19/40, 1/40, 1/20, 9/20]⟩⟩

/-- The demo factor list as the first `variable_elimination` call leaves it:
the dict at index 3 has been normalized in place. -/
def demoMutated : List Factor :=
  [⟨["Burglary"], ⟨[2], [99/100, 1/100]⟩⟩,
   ⟨["Earthquake"], ⟨[2], [98/100, 2/100]⟩⟩,
   ⟨["Burglary", "Earthquake", "Alarm"],
     ⟨[2, 2, 2], [999/1000, 1/1000, 71/100, 29/100, 6/100, 94/100, 5/100, 95/100]⟩⟩,
   demoVEResult,
   ⟨["Alarm", "MaryCalls"], ⟨[2, 2], [99/100, 1/100, 3/10, 7/10]⟩⟩]

theorem ebind_ok {α β ε : Type} (a : α) (f : α → Except ε β) :
    (Except.ok a >>= f) = f a := rfl

theorem ebind_err {α β ε : Type} (e : ε) (f : α → Except ε β) :
    ((Except.error e : Except ε α) >>= f) = Except.error e := rfl

theorem pyIndexFrom_err {l : List String} {x : String} {k : Nat} {e : PyError}
    (h : pyIndexFrom l x k = .error e) : e = .valueError := by
  induction l generalizing k with
  | nil => cases h; rfl
  | cons a rest ih =>
      by_cases hax : a = x
      · simp only [pyIndexFrom, if_pos hax] at h; cases h
      · simp only [pyIndexFrom, if_neg hax] at h; exact ih h

theorem pyIndexFrom_mem {l : List String} {x : String} (hx : x ∈ l) :
    ∀ k, ∃ i, pyIndexFrom l x k = .ok i ∧ i < k + l.length := by
  induction l with
  | nil => cases hx
  | cons a rest ih =>
      intro k
      by_cases hax : a = x
      · exact ⟨k, by simp [pyIndexFrom, hax], by simp⟩
      · have hx' : x ∈ rest := by
          cases hx with
          | head => exact absurd rfl hax
          | tail _ h => exact h
        obtain ⟨i, hok, hlt⟩ := ih hx' (k + 1)
        exact ⟨i, by simp [pyIndexFrom, hax, hok], by simp only [List.length_cons]; omega⟩

theorem emap_ok {α β ε : Type} (g : α → β) (a : α) :
    Except.map g (.ok a : Except ε α) = .ok (g a) := rfl

theorem emap_err {α β ε : Type} (g : α → β) (e : ε) :
    Except.map g (.error e : Except ε α) = .error e := rfl

theorem tagFrom_demo : tagFrom "Alarm" demoEvKeys 0 demoFactors =
    [⟨⟨["Burglary", "Earthquake", "Alarm"],
        ⟨[2, 2, 2], [999/1000, 1/1000, 71/100, 29/100, 3/50, 47/50, 1/20, 19/20]⟩⟩, some 2⟩,
     ⟨⟨["Alarm", "JohnCalls"], ⟨[2, 2], [19/20, 1/20, 1/10, 9/10]⟩⟩, some 3⟩,
     ⟨⟨["Alarm", "MaryCalls"], ⟨[2, 2], [99/100, 1/100, 3/10, 7/10]⟩⟩, some 4⟩] := by
  simp only [demoFactors, demoEvKeys, tagFrom, relevantB]
  split_ifs <;> simp_all
  norm_num

theorem elim_demo_B : eliminate_variable_t
    [⟨⟨["Burglary", "Earthquake", "Alarm"],
        ⟨[2, 2, 2], [999/1000, 1/1000, 71/100, 29/100, 3/50, 47/50, 1/20, 19/20]⟩⟩, some 2⟩,
     ⟨⟨["Alarm", "JohnCalls"], ⟨[2, 2], [19/20, 1/20, 1/10, 9/10]⟩⟩, some 3⟩,
     ⟨⟨["Alarm", "MaryCalls"], ⟨[2, 2], [99/100, 1/100, 3/10, 7/10]⟩⟩, some 4⟩] "Burglary" =
    .ok [⟨⟨["Alarm", "JohnCalls"], ⟨[2, 2], [19/20, 1/20, 1/10, 9/10]⟩⟩, some 3⟩,
         ⟨⟨["Alarm", "MaryCalls"], ⟨[2, 2], [99/100, 1/100, 3/10, 7/10]⟩⟩, some 4⟩,
         ⟨⟨["Earthquake", "Alarm"], ⟨[2, 2], [1059/1000, 941/1000, 19/25, 31/25]⟩⟩, none⟩] := by
  simp [eliminate_variable_t, multiply_factors, sum_out_variable, npMultiply, npSum,
    broadcastDims, broadcastRev, bcast2, allIdx, bGet, getAt, flatPos, pyIndex, pyIndexFrom,
    List.range_succ, ebind_ok]
  norm_num

theorem elim_demo_BE : eliminate_variable_t
    [⟨⟨["Alarm", "JohnCalls"], ⟨[2, 2], [19/20, 1/20, 1/10, 9/10]⟩⟩, some 3⟩,
     ⟨⟨["Alarm", "MaryCalls"], ⟨[2, 2], [99/100, 1/100, 3/10, 7/10]⟩⟩, some 4⟩,
     ⟨⟨["Earthquake", "Alarm"], ⟨[2, 2], [1059/1000, 941/1000, 19/25, 31/25]⟩⟩, none⟩]
    "Earthquake" =
    .ok [⟨⟨["Alarm", "JohnCalls"], ⟨[2, 2], [19/20, 1/20, 1/10, 9/10]⟩⟩, some 3⟩,
         ⟨⟨["Alarm", "MaryCalls"], ⟨[2, 2], [99/100, 1/100, 3/10, 7/10]⟩⟩, some 4⟩,
         ⟨⟨["Alarm"], ⟨[2], [1819/1000, 2181/1000]⟩⟩, none⟩] := by
  simp [eliminate_variable_t, multiply_factors, sum_out_variable, npMultiply, npSum,
    broadcastDims, broadcastRev, bcast2, allIdx, bGet, getAt, flatPos, pyIndex, pyIndexFrom,
    List.range_succ, ebind_ok]
  norm_num

theorem ve_demo_order1 :
    VE_full demoFactors "Alarm" demoEvKeys ["Burglary", "Earthquake"] =
      .ok (demoVEResult, demoMutated) := by
  simp only [VE_full, elimLoopT, List.foldlM, tagFrom_demo, elim_demo_B, elim_demo_BE,
    ebind_ok]
  norm_num [demoVEResult, demoMutated, demoFactors]

theorem elim_demo_E : eliminate_variable_t
    [⟨⟨["Burglary", "Earthquake", "Alarm"],
        ⟨[2, 2, 2], [999/1000, 1/1000, 71/100, 29/100, 3/50, 47/50, 1/20, 19/20]⟩⟩, some 2⟩,
     ⟨⟨["Alarm", "JohnCalls"], ⟨[2, 2], [19/20, 1/20, 1/10, 9/10]⟩⟩, some 3⟩,
     ⟨⟨["Alarm", "MaryCalls"], ⟨[2, 2], [99/100, 1/100, 3/10, 7/10]⟩⟩, some 4⟩] "Earthquake" =
    .ok [⟨⟨["Alarm", "JohnCalls"], ⟨[2, 2], [19/20, 1/20, 1/10, 9/10]⟩⟩, some 3⟩,
         ⟨⟨["Alarm", "MaryCalls"], ⟨[2, 2], [99/100, 1/100, 3/10, 7/10]⟩⟩, some 4⟩,
         ⟨⟨["Burglary", "Alarm"],
             ⟨[2, 2], [1709/1000, 291/1000, 11/100, 189/100]⟩⟩, none⟩] := by
  simp [eliminate_variable_t, multiply_factors, sum_out_variable, npMultiply, npSum,
    broadcastDims, broadcastRev, bcast2, allIdx, bGet, getAt, flatPos, pyIndex, pyIndexFrom,
    List.range_succ, ebind_ok]
  norm_num

theorem elim_demo_EB : eliminate_variable_t
    [⟨⟨["Alarm", "JohnCalls"], ⟨[2, 2], [19/20, 1/20, 1/10, 9/10]⟩⟩, some 3⟩,
     ⟨⟨["Alarm", "MaryCalls"], ⟨[2, 2], [99/100, 1/100, 3/10, 7/10]⟩⟩, some 4⟩,
     ⟨⟨["Burglary", "Alarm"], ⟨[2, 2], [1709/1000, 291/1000, 11/100, 189/100]⟩⟩, none⟩]
    "Burglary" =
    .ok [⟨⟨["Alarm", "JohnCalls"], ⟨[2, 2], [19/20, 1/20, 1/10, 9/10]⟩⟩, some 3⟩,
         ⟨⟨["Alarm", "MaryCalls"], ⟨[2, 2], [99/100, 1/100, 3/10, 7/10]⟩⟩, some 4⟩,
         ⟨⟨["Alarm"], ⟨[2], [1819/1000, 2181/1000]⟩⟩, none⟩] := by
  simp [eliminate_variable_t, multiply_factors, sum_out_variable, npMultiply, npSum,
    broadcastDims, broadcastRev, bcast2, allIdx, bGet, getAt, flatPos, pyIndex, pyIndexFrom,
    List.range_succ, ebind_ok]
  norm_num

theorem ve_demo_order2 :
    VE_full demoFactors "Alarm" demoEvKeys ["Earthquake", "Burglary"] =
      .ok (demoVEResult, demoMutated) := by
  simp only [VE_full, elimLoopT, List.foldlM, tagFrom_demo, elim_demo_E, elim_demo_EB,
    ebind_ok]
  norm_num [demoVEResult, demoMutated, demoFactors]

theorem tagFrom_demoMutated : tagFrom "Alarm" demoEvKeys 0 demoMutated =
    [⟨⟨["Burglary", "Earthquake", "Alarm"],
        ⟨[2, 2, 2], [999/1000, 1/1000, 71/100, 29/100, 3/50, 47/50, 1/20, 19/20]⟩⟩, some 2⟩,
     ⟨⟨["Alarm", "JohnCalls"], ⟨[2, 2], [19/40, 1/40, 1/20, 9/20]⟩⟩, some 3⟩,
     ⟨⟨["Alarm", "MaryCalls"], ⟨[2, 2], [99/100, 1/100, 3/10, 7/10]⟩⟩, some 4⟩] := by
  simp only [demoMutated, demoVEResult, demoEvKeys, tagFrom, relevantB]
  split_ifs <;> simp_all
  norm_num

theorem elim_demoM_B : eliminate_variable_t
    [⟨⟨["Burglary", "Earthquake", "Alarm"],
        ⟨[2, 2, 2], [999/1000, 1/1000, 71/100, 29/100, 3/50, 47/50, 1/20, 19/20]⟩⟩, some 2⟩,
     ⟨⟨["Alarm", "JohnCalls"], ⟨[2, 2], [19/40, 1/40, 1/20, 9/20]⟩⟩, some 3⟩,
     ⟨⟨["Alarm", "MaryCalls"], ⟨[2, 2], [99/100, 1/100, 3/10, 7/10]⟩⟩, some 4⟩] "Burglary" =
    .ok [⟨⟨["Alarm", "JohnCalls"], ⟨[2, 2], [19/40, 1/40, 1/20, 9/20]⟩⟩, some 3⟩,
         ⟨⟨["Alarm", "MaryCalls"], ⟨[2, 2], [99/100, 1/100, 3/10, 7/10]⟩⟩, some 4⟩,
         ⟨⟨["Earthquake", "Alarm"], ⟨[2, 2], [1059/1000, 941/1000, 19/25, 31/25]⟩⟩, none⟩] := by
  simp [eliminate_variable_t, multiply_factors, sum_out_variable, npMultiply, npSum,
    broadcastDims, broadcastRev, bcast2, allIdx, bGet, getAt, flatPos, pyIndex, pyIndexFrom,
    List.range_succ, ebind_ok]
  norm_num

theorem elim_demoM_BE : eliminate_variable_t
    [⟨⟨["Alarm", "JohnCalls"], ⟨[2, 2], [19/40, 1/40, 1/20, 9/20]⟩⟩, some 3⟩,
     ⟨⟨["Alarm", "MaryCalls"], ⟨[2, 2], [99/100, 1/100, 3/10, 7/10]⟩⟩, some 4⟩,
     ⟨⟨["Earthquake", "Alarm"], ⟨[2, 2], [1059/1000, 941/1000, 19/25, 31/25]⟩⟩, none⟩]
    "Earthquake" =
    .ok [⟨⟨["Alarm", "JohnCalls"], ⟨[2, 2], [19/40, 1/40, 1/20, 9/20]⟩⟩, some 3⟩,
         ⟨⟨["Alarm", "MaryCalls"], ⟨[2, 2], [99/100, 1/100, 3/10, 7/10]⟩⟩, some 4⟩,
         ⟨⟨["Alarm"], ⟨[2], [1819/1000, 2181/1000]⟩⟩, none⟩] := by
  simp [eliminate_variable_t, multiply_factors, sum_out_variable, npMultiply, npSum,
    broadcastDims, broadcastRev, bcast2, allIdx, bGet, getAt, flatPos, pyIndex, pyIndexFrom,
    List.range_succ, ebind_ok]
  norm_num

theorem ve_demo_mutated :
    VE_full demoMutated "Alarm" demoEvKeys ["Burglary", "Earthquake"] =
      .ok (demoVEResult, demoMutated) := by
  simp only [VE_full, elimLoopT, List.foldlM, tagFrom_demoMutated, elim_demoM_B,
    elim_demoM_BE, ebind_ok]
  norm_num [demoVEResult, demoMutated, demoFactors]

theorem tagFrom_c5 : tagFrom "Q" [] 0 c5Factors =
    [⟨⟨["Q", "A"], ⟨[2, 2], [1, 2, 3, 4]⟩⟩, some 0⟩,
     ⟨⟨["Q", "B"], ⟨[2, 2], [5, 6, 7, 8]⟩⟩, some 1⟩,
     ⟨⟨["Q", "A", "B"], ⟨[2, 2, 2], [1, 1, 1, 1, 1, 1, 1, 1]⟩⟩, some 2⟩] := by
  simp only [c5Factors, tagFrom, relevantB]
  split_ifs <;> simp_all

theorem elim_c5_A : eliminate_variable_t
    [⟨⟨["Q", "A"], ⟨[2, 2], [1, 2, 3, 4]⟩⟩, some 0⟩,
     ⟨⟨["Q", "B"], ⟨[2, 2], [5, 6, 7, 8]⟩⟩, some 1⟩,
     ⟨⟨["Q", "A", "B"], ⟨[2, 2, 2], [1, 1, 1, 1, 1, 1, 1, 1]⟩⟩, some 2⟩] "A" =
    .ok [⟨⟨["Q", "B"], ⟨[2, 2], [5, 6, 7, 8]⟩⟩, some 1⟩,
         ⟨⟨["Q"], ⟨[2, 2], [4, 6, 4, 6]⟩⟩, none⟩] := by
  simp [eliminate_variable_t, multiply_factors, sum_out_variable, npMultiply, npSum,
    broadcastDims, broadcastRev, bcast2, allIdx, bGet, getAt, flatPos, pyIndex, pyIndexFrom,
    List.range_succ, ebind_ok]
  norm_num

theorem elim_c5_AB : eliminate_variable_t
    [⟨⟨["Q", "B"], ⟨[2, 2], [5, 6, 7, 8]⟩⟩, some 1⟩,
     ⟨⟨["Q"], ⟨[2, 2], [4, 6, 4, 6]⟩⟩, none⟩] "B" =
    .ok [⟨⟨["Q"], ⟨[2, 2], [4, 6, 4, 6]⟩⟩, none⟩,
         ⟨⟨["Q"], ⟨[2], [11, 15]⟩⟩, none⟩] := by
  simp [eliminate_variable_t, multiply_factors, sum_out_variable, npMultiply, npSum,
    broadcastDims, broadcastRev, bcast2, allIdx, bGet, getAt, flatPos, pyIndex, pyIndexFrom,
    List.range_succ, ebind_ok]
  norm_num

theorem elim_c5_B : eliminate_variable_t
    [⟨⟨["Q", "A"], ⟨[2, 2], [1, 2, 3, 4]⟩⟩, some 0⟩,
     ⟨⟨["Q", "B"], ⟨[2, 2], [5, 6, 7, 8]⟩⟩, some 1⟩,
     ⟨⟨["Q", "A", "B"], ⟨[2, 2, 2], [1, 1, 1, 1, 1, 1, 1, 1]⟩⟩, some 2⟩] "B" =
    .ok [⟨⟨["Q", "A"], ⟨[2, 2], [1, 2, 3, 4]⟩⟩, some 0⟩,
         ⟨⟨["Q"], ⟨[2, 2], [12, 14, 12, 14]⟩⟩, none⟩] := by
  simp [eliminate_variable_t, multiply_factors, sum_out_variable, npMultiply, npSum,
    broadcastDims, broadcastRev, bcast2, allIdx, bGet, getAt, flatPos, pyIndex, pyIndexFrom,
    List.range_succ, ebind_ok]
  norm_num

theorem elim_c5_BA : eliminate_variable_t
    [⟨⟨["Q", "A"], ⟨[2, 2], [1, 2, 3, 4]⟩⟩, some 0⟩,
     ⟨⟨["Q"], ⟨[2, 2], [12, 14, 12, 14]⟩⟩, none⟩] "A" =
    .ok [⟨⟨["Q"], ⟨[2, 2], [12, 14, 12, 14]⟩⟩, none⟩,
         ⟨⟨["Q"], ⟨[2], [3, 7]⟩⟩, none⟩] := by
  simp [eliminate_variable_t, multiply_factors, sum_out_variable, npMultiply, npSum,
    broadcastDims, broadcastRev, bcast2, allIdx, bGet, getAt, flatPos, pyIndex, pyIndexFrom,
    List.range_succ, ebind_ok]
  norm_num

theorem ve_c5_order1 :
    VE_full c5Factors "Q" [] ["A", "B"] =
      .ok (⟨["Q"], ⟨[2, 2], [1/5, 3/10, 1/5, 3/10]⟩⟩, c5Factors) := by
  simp only [VE_full, elimLoopT, List.foldlM, tagFrom_c5, elim_c5_A, elim_c5_AB, ebind_ok]
  norm_num

theorem ve_c5_order2 :
    VE_full c5Factors "Q" [] ["B", "A"] =
      .ok (⟨["Q"], ⟨[2, 2], [3/13, 7/26, 3/13, 7/26]⟩⟩, c5Factors) := by
  simp only [VE_full, elimLoopT, List.foldlM, tagFrom_c5, elim_c5_B, elim_c5_BA, ebind_ok]
  norm_num

/-- C2: the claim says the factor returned by multiplication has scope equal
to the union of all input scopes and, at each joint assignment of the union
scope, the product of the inputs' restricted values.  The code instead keeps
the FIRST factor's scope and multiplies the raw arrays elementwise: on the
two single-variable factors over the distinct variables `A` and `B` it
returns a factor still scoped over `["A"]` with table `[1*3, 2*4] = [3, 8]`,
where the claimed result is scoped over `["A", "B"]` with table
`[[3, 4], [6, 8]]`. -/
theorem c2_multiply_keeps_first_scope :
    multiply_factors [⟨["A"], ⟨[2], [1, 2]⟩⟩, ⟨["B"], ⟨[2], [3, 4]⟩⟩] =
      .ok ⟨["A"], ⟨[2], [3, 8]⟩⟩ ∧
    (Factor.mk ["A"] ⟨[2], [3, 8]⟩).variables ≠ ["A", "B"] := by
  constructor
  · norm_num [multiply_factors, npMultiply, broadcastDims, broadcastRev, bcast2, allIdx,
      bGet, getAt, flatPos, List.range_succ, ebind_ok]
  · simp

/-- C8 counterexample: `multiply_factors` of the empty factor list does not
report the StructuralError the claim requires. -/
theorem c8_empty_multiply_not_structural :
    multiply_factors ([] : List Factor) ≠ .error .structuralError := by
  simp [multiply_factors]

/-- C8 amended: `multiply_factors([])` fails with the `IndexError` raised by
the subscript `factors[0]`, not with an explicit StructuralError report. -/
theorem c8_empty_multiply_index_error :
    multiply_factors ([] : List Factor) = .error .indexError := rfl

/-- C6 counterexample: on a factor whose table sums to zero,
`normalize_factors` does not surface a degenerate-distribution error result
to the caller. -/
theorem c6_zero_sum_not_reported :
    normalize_factors [⟨["X"], ⟨[2], [0, 0]⟩⟩] ≠ .error .degenerateDistributionError := by
  have h : normalize_factors [⟨["X"], ⟨[2], [0, 0]⟩⟩] = .ok ⟨["X"], ⟨[2], [0, 0]⟩⟩ := by
    norm_num [normalize_factors]
  rw [h]
  intro hh
  exact Except.noConfusion hh

/-- C6 amended: when the head factor's table sums to exactly zero,
`normalize_factors` prints a warning and returns that factor unchanged and
unnormalized; the degenerate-distribution condition is never reported to the
caller as an error result (and no division by zero happens). -/
theorem c6_zero_sum_returns_unnormalized (f : Factor) (rest : List Factor)
    (h : f.values.data.sum = 0) : normalize_factors (f :: rest) = .ok f := by
  simp [normalize_factors, h]

/-- C6 witness. -/
theorem c6_zero_sum_witness :
    normalize_factors [⟨["X"], ⟨[2], [0, 0]⟩⟩] = .ok ⟨["X"], ⟨[2], [0, 0]⟩⟩ :=
  c6_zero_sum_returns_unnormalized ⟨["X"], ⟨[2], [0, 0]⟩⟩ [] (by norm_num)

/-- C3: on the alarm network with query `Alarm` and evidence keys
`{JohnCalls, MaryCalls}`, the evidence variables are excluded from the
elimination set but never restricted or summed out, so the factor
`variable_elimination` returns is scoped over `["Alarm", "JohnCalls"]` — not
over the query variable alone — under either enumeration order of the
elimination set `{Burglary, Earthquake}`.  (Its whole 2x2 table does sum to
1, but it is not a distribution over the query variable's domain.) -/
theorem c3_result_keeps_evidence_axis :
    Except.map Prod.fst (VE_full demoFactors "Alarm" demoEvKeys ["Burglary", "Earthquake"]) =
      .ok demoVEResult ∧
    Except.map Prod.fst (VE_full demoFactors "Alarm" demoEvKeys ["Earthquake", "Burglary"]) =
      .ok demoVEResult ∧
    demoVEResult.variables = ["Alarm", "JohnCalls"] ∧
    demoVEResult.variables ≠ ["Alarm"] := by
  refine ⟨by rw [ve_demo_order1]; rfl, by rw [ve_demo_order2]; rfl, rfl, by decide⟩

/-- C5: the two enumeration orders `[A, B]` and `[B, A]` of the elimination
set `{A, B}` of `c5Factors` (query `Q`, no evidence) both make
`variable_elimination` succeed, but with different final numeric results,
because the mis-scoped `multiply_factors` makes the summed-out tables depend
on which factor happens to be multiplied first. -/
theorem c5_order_changes_result :
    Except.map Prod.fst (VE_full c5Factors "Q" [] ["A", "B"]) =
      .ok ⟨["Q"], ⟨[2, 2], [1/5, 3/10, 1/5, 3/10]⟩⟩ ∧
    Except.map Prod.fst (VE_full c5Factors "Q" [] ["B", "A"]) =
      .ok ⟨["Q"], ⟨[2, 2], [3/13, 7/26, 3/13, 7/26]⟩⟩ ∧
    (Factor.mk ["Q"] ⟨[2, 2], [1/5, 3/10, 1/5, 3/10]⟩) ≠
      (Factor.mk ["Q"] ⟨[2, 2], [3/13, 7/26, 3/13, 7/26]⟩) := by
  refine ⟨by rw [ve_c5_order1]; rfl, by rw [ve_c5_order2]; rfl, ?_⟩
  norm_num [Factor.mk.injEq, NDArray.mk.injEq]

theorem sample_var_relevant_nil (A : List (List Int)) (factors : List Factor) (i : Nat) :
    sample_var_relevant A factors i = [] := by
  simp [sample_var_relevant, pyIntStrEq]

/-- C1: the claim describes a Gibbs resampling step whose blanket contains
every variable sharing a factor scope with `var` (including co-parents),
whose factor set is every factor touching `{var} ∪ blanket`, and whose
per-value weights vary with the candidate value.  The code instead builds the
blanket from graph adjacency only, as INTEGER node indices, and then tests
them for membership in the factors' STRING scope lists — which always fails —
so the gathered factor list is empty and `prob_dist` stays `[1/2, 1/2]`: on
the alarm network (resampling `Alarm`), for EVERY state and every uniform
variate the draw is uniform and ignores all CPTs (the true conditional
weights would be, for the all-zeros rest-state, proportional to
`[0.999*0.95*0.99, 0.001*0.05*0.01]`). -/
theorem c1_gibbs_resample_ignores_factors :
    sample_var_relevant demoA demoFactors 2 = [] ∧
    ∀ (s : String → Nat) (u : ℚ),
      sample_var demoA demoNodes demoFactors "Alarm" s u = .ok (npChoice2 (1/2) u) := by
  constructor
  · exact sample_var_relevant_nil demoA demoFactors 2
  · intro s u
    simp only [sample_var, pyIndex, pyIndexFrom, demoNodes, demoA, ebind_ok,
      sample_var_relevant_nil, npChoice2]
    simp [sample_var_probs, ebind_ok]
    norm_num

theorem sample_var_uniform (A : List (List Int)) (nodes : List String)
    (factors : List Factor) (var : String) (s : String → Nat) (u0 : ℚ)
    (hvar : var ∈ nodes) (hlen : nodes.length ≤ A.length) :
    sample_var A nodes factors var s u0 = .ok (npChoice2 (1/2) u0) := by
  obtain ⟨i, hok, hlt⟩ := pyIndexFrom_mem hvar 0
  have hiA : i < A.length := by omega
  simp only [sample_var, pyIndex, hok, ebind_ok, if_pos hiA, sample_var_relevant_nil]
  simp [sample_var_probs, ebind_ok, npChoice2]
  norm_num

theorem sweepVars_ok (A : List (List Int)) (nodes : List String)
    (factors : List Factor) (ev : String → Option Nat) (u : Nat → ℚ)
    (hlen : nodes.length ≤ A.length) :
    ∀ (vars : List String), (∀ v ∈ vars, v ∈ nodes) →
      ∀ (s : String → Nat) (k : Nat),
        ∃ s' k', sweepVars A nodes factors ev u vars s k = .ok (s', k') := by
  intro vars
  induction vars with
  | nil => intro _ s k; exact ⟨s, k, rfl⟩
  | cons v rest ih =>
      intro hmem s k
      have hv : v ∈ nodes := hmem v (List.mem_cons_self v rest)
      have hrest : ∀ w ∈ rest, w ∈ nodes := fun w hw => hmem w (List.mem_cons_of_mem v hw)
      by_cases hev : (ev v).isSome
      · simpa [sweepVars, hev] using ih hrest s k
      · have hsv := sample_var_uniform A nodes factors v s (u k) hv hlen
        obtain ⟨s', k', hsk⟩ := ih hrest (Function.update s v (npChoice2 (1/2) (u k))) (k + 1)
        refine ⟨s', k', ?_⟩
        simp only [sweepVars]
        rw [if_neg hev, hsv, ebind_ok]
        exact hsk

theorem gibbsLoop_burnin (A : List (List Int)) (nodes : List String)
    (factors : List Factor) (ev : String → Option Nat) (u : Nat → ℚ)
    (q : String) (burn_in : Nat) (hlen : nodes.length ≤ A.length) :
    ∀ (r i : Nat) (s : String → Nat) (k : Nat) (acc : List Nat), i + r ≤ burn_in →
      gibbsLoop A nodes factors ev u q burn_in i r s k acc = .ok acc := by
  intro r
  induction r with
  | zero => intro i s k acc _; rfl
  | succ r ih =>
      intro i s k acc hle
      obtain ⟨s', k', hsk⟩ := sweepVars_ok A nodes factors ev u hlen nodes (fun _ h => h) s k
      have hib : ¬ burn_in ≤ i := by omega
      simp only [gibbsLoop, hsk, ebind_ok, hib, if_neg hib]
      exact ih (i + 1) s' k' acc (by omega)

/-- C7 amended: calling `gibbs_sampling` with `num_samples = 0` runs only the
burn-in sweeps, collects no sample, and then crashes with the
`ZeroDivisionError` raised by `sum(samples) / len(samples)` — it does not
report a SamplingConfigurationError (no such error exists in the code).
Stated for every network whose node list fits the adjacency matrix (so that
the burn-in sweeps themselves run without a graph-lookup error). -/
theorem c7_zero_samples_zero_division (A : List (List Int)) (nodes : List String) (factors : List Factor)
    (q : String) (ev : String → Option Nat) (burn_in : Nat) (u : Nat → ℚ)
    (hlen : nodes.length ≤ A.length) :
    gibbs_sampling A nodes factors q ev 0 burn_in u = .error .zeroDivisionError := by
  simp only [gibbs_sampling, Nat.zero_add]
  rw [gibbsLoop_burnin A nodes factors ev u q burn_in hlen burn_in 0 _ _ _ (by omega)]
  simp [ebind_ok]

/-- C7 counterexample: `gibbs_sampling` with `num_samples = 0` on the alarm
network does not report a SamplingConfigurationError. -/
theorem c7_not_sampling_config_error :
    gibbs_sampling demoA demoNodes demoFactors "Alarm" demoEv 0 1 (fun _ => 1/3) ≠
      .error .samplingConfigurationError := by
  rw [c7_zero_samples_zero_division demoA demoNodes demoFactors "Alarm" demoEv 1
    (fun _ => 1/3) (by decide)]
  decide

/-- C7 witness. -/
theorem c7_zero_samples_witness :
    gibbs_sampling demoA demoNodes demoFactors "Alarm" demoEv 0 1 (fun _ => 1/3) =
      .error .zeroDivisionError :=
  c7_zero_samples_zero_division demoA demoNodes demoFactors "Alarm" demoEv 1
    (fun _ => 1/3) (by decide)

/-- C10: throughout a Gibbs-sampling run, evidence variables keep their fixed
evidence values: (1) immediately after initialization the state agrees with
the evidence map on every evidence variable, and (2) every (partial or full)
sweep preserves that agreement, because `sweepVars` skips any variable with
`var in evidence` and only updates non-evidence variables.  Together these
pin every evidence variable to its evidence value at every iteration of every
sweep, for the lifetime of the run. -/
theorem c10_evidence_pinned :
    (∀ (nodes : List String) (ev : String → Option Nat) (u : Nat → ℚ) (e : String) (v : Nat),
       ev e = some v → evidenceInit nodes ev u e = v) ∧
    (∀ (A : List (List Int)) (nodes : List String) (factors : List Factor)
       (ev : String → Option Nat) (u : Nat → ℚ) (vars : List String)
       (s : String → Nat) (k : Nat) (s' : String → Nat) (k' : Nat),
       (∀ e v, ev e = some v → s e = v) →
       sweepVars A nodes factors ev u vars s k = .ok (s', k') →
       ∀ e v, ev e = some v → s' e = v) := by
  constructor
  · intro nodes ev u e v h
    simp [evidenceInit, h]
  · intro A nodes factors ev u vars
    induction vars with
    | nil =>
        intro s k s' k' hP hrun e v hev
        simp only [sweepVars] at hrun
        cases hrun
        exact hP e v hev
    | cons w rest ih =>
        intro s k s' k' hP hrun e v hev
        by_cases hw : (ev w).isSome
        · simp only [sweepVars, if_pos hw] at hrun
          exact ih s k s' k' hP hrun e v hev
        · simp only [sweepVars, if_neg hw] at hrun
          cases hsv : sample_var A nodes factors w s (u k) with
          | error err => rw [hsv, ebind_err] at hrun; cases hrun
          | ok val =>
              rw [hsv, ebind_ok] at hrun
              refine ih (Function.update s w val) (k + 1) s' k' ?_ hrun e v hev
              intro e' v' hev'
              have hne : e' ≠ w := by
                intro hcontra
                rw [hcontra] at hev'
                rw [hev'] at hw
                exact hw rfl
              rw [Function.update_noteq hne]
              exact hP e' v' hev'

theorem c10_evidence_pinned_witness :
    Function.update (Function.update (Function.update c10Start "Burglary" 0)
      "Earthquake" 0) "Alarm" 0 "JohnCalls" = 1 := by
  refine c10_evidence_pinned.2 demoA demoNodes demoFactors demoEv (fun _ => 1/3) demoNodes
    c10Start 0 _ 3 ?_ ?_ "JohnCalls" 1 rfl
  · intro e v hev
    simp only [demoEv] at hev
    by_cases h1 : e = "JohnCalls"
    · subst h1; simp at hev; simp [c10Start, hev]
    · by_cases h2 : e = "MaryCalls"
      · subst h2; simp at hev; simp [c10Start, hev]
      · simp [h1, h2] at hev
  · have hu : ∀ (s : String → Nat) (v : String), v ∈ demoNodes →
        sample_var demoA demoNodes demoFactors v s (1/3) = .ok 0 := by
      intro s v hv
      rw [sample_var_uniform demoA demoNodes demoFactors v s (1/3) hv (by decide)]
      norm_num [npChoice2]
    simp only [demoNodes] at hu
    have e1 : demoEv "Burglary" = none := rfl
    have e2 : demoEv "Earthquake" = none := rfl
    have e3 : demoEv "Alarm" = none := rfl
    have e4 : demoEv "JohnCalls" = some 1 := rfl
    have e5 : demoEv "MaryCalls" = some 1 := rfl
    simp only [sweepVars, demoNodes, e1, e2, e3, e4, e5, Option.isSome_none,
      Option.isSome_some, Bool.false_eq_true, if_false, if_true]
    norm_num [hu, ebind_ok]

theorem moralB_symm (A : List (List Int)) (i j : Nat) : moralB A i j = moralB A j i := by
  have hany : ((List.range A.length).any (fun k => decide (i ≠ j) && adjB A i k && adjB A j k)) =
      ((List.range A.length).any (fun k => decide (j ≠ i) && adjB A j k && adjB A i k)) := by
    apply congrArg
    funext k
    by_cases hij : i = j
    · simp [hij]
    · have hji : ¬ j = i := fun h => hij h.symm
      simp [hij, hji, Bool.and_comm]
  unfold moralB
  rw [hany, Bool.or_comm (adjB A i j) (adjB A j i)]

theorem restrictedB_symm (A : List (List Int)) (Z : List Nat) (i j : Nat) :
    restrictedB A Z i j = restrictedB A Z j i := by
  unfold restrictedB
  rw [moralB_symm]
  cases hzi : Z.contains i <;> cases hzj : Z.contains j <;> simp

theorem mem_listsLen (n : Nat) : ∀ (k : Nat) (p : List Nat),
    p ∈ listsLen n k ↔ p.length = k ∧ ∀ a ∈ p, a < n := by
  intro k
  induction k with
  | zero =>
      intro p
      simp only [listsLen, List.mem_singleton]
      constructor
      · rintro rfl; simp
      · rintro ⟨hl, _⟩; exact List.eq_nil_of_length_eq_zero hl
  | succ k ih =>
      intro p
      simp only [listsLen, List.mem_flatMap, List.mem_map, List.mem_range]
      constructor
      · rintro ⟨a, ha, q, hq, rfl⟩
        obtain ⟨hlen, hmem⟩ := (ih q).mp hq
        refine ⟨by simp [hlen], ?_⟩
        intro b hb
        rcases List.mem_cons.mp hb with rfl | hb'
        · exact ha
        · exact hmem b hb'
      · rintro ⟨hlen, hmem⟩
        cases p with
        | nil => cases hlen
        | cons a q =>
            refine ⟨a, hmem a (List.mem_cons_self a q), q, (ih q).mpr ⟨by simpa using hlen, ?_⟩, rfl⟩
            intro b hb
            exact hmem b (List.mem_cons_of_mem a hb)

theorem mem_pathsUpTo (n : Nat) (p : List Nat) :
    p ∈ pathsUpTo n ↔ p.length ≤ n ∧ ∀ a ∈ p, a < n := by
  simp only [pathsUpTo, List.mem_flatMap, List.mem_range, mem_listsLen]
  constructor
  · rintro ⟨k, hk, hlen, hmem⟩
    exact ⟨by omega, hmem⟩
  · rintro ⟨hlen, hmem⟩
    exact ⟨p.length, by omega, rfl, hmem⟩

theorem walkProp_reverse (adj : Nat → Nat → Bool)
    (hsym : ∀ i j, adj i j = adj j i) (x y : Nat) (p : List Nat)
    (h : walkProp adj x y p) : walkProp adj y x p.reverse := by
  obtain ⟨h1, h2, h3⟩ := h
  refine ⟨?_, ?_, ?_⟩
  · rw [List.head?_reverse]; exact h2
  · rw [List.getLast?_reverse]; exact h1
  · rw [List.chain'_reverse]
    exact h3.imp (fun a b hab => show adj b a = true from (hsym b a).trans hab)

theorem hasPathB_symm (adj : Nat → Nat → Bool)
    (hsym : ∀ i j, adj i j = adj j i) (n x y : Nat) :
    hasPathB adj n x y = hasPathB adj n y x := by
  unfold hasPathB
  rw [decide_eq_decide]
  constructor
  · rintro ⟨p, hp, hw⟩
    refine ⟨p.reverse, ?_, walkProp_reverse adj hsym x y p hw⟩
    rw [mem_pathsUpTo] at hp ⊢
    simpa using hp
  · rintro ⟨p, hp, hw⟩
    refine ⟨p.reverse, ?_, walkProp_reverse adj hsym y x p hw⟩
    rw [mem_pathsUpTo] at hp ⊢
    simpa using hp

theorem d_separation_idx_symm (A : List (List Int)) (X Y : Nat) (Z : List Nat) :
    d_separation_idx A X Y Z = d_separation_idx A Y X Z := by
  unfold d_separation_idx
  by_cases hx : X < A.length ∧ X ∉ Z <;> by_cases hy : Y < A.length ∧ Y ∉ Z <;>
    simp only [hx, hy, if_pos, if_neg, if_true, if_false, not_false_eq_true, not_true_eq_false]
  · rw [hasPathB_symm (restrictedB A Z) (restrictedB_symm A Z) A.length X Y]
  all_goals rfl

/-- C9: `d_separation(X, Y, Z)` and `d_separation(Y, X, Z)` agree for every
adjacency matrix, node list, pair of variable names and conditioning set:
the moralized-and-reduced graph is undirected (its adjacency test is
symmetric), an undirected walk reverses, `nx.has_path` raises the same
`NodeNotFound` whichever endpoint is missing, and an unknown name raises the
same `ValueError` whichever argument it is. -/
theorem c9_d_separation_symm (A : List (List Int)) (nodes : List String) (X Y : String)
    (Z : List String) : d_separation A nodes X Y Z = d_separation A nodes Y X Z := by
  unfold d_separation
  cases hx : pyIndex nodes X with
  | error e =>
      have he := pyIndexFrom_err hx
      cases hy : pyIndex nodes Y with
      | error e' =>
          have he' := pyIndexFrom_err hy
          subst he he'
          simp [ebind_err]
      | ok yi => subst he; simp [ebind_ok, ebind_err, hx, hy]
  | ok xi =>
      cases hy : pyIndex nodes Y with
      | error e' =>
          have he' := pyIndexFrom_err hy
          subst he'
          simp [ebind_ok, ebind_err, hx, hy]
      | ok yi =>
          simp only [ebind_ok, hx, hy]
          cases hz : Z.mapM (fun z => pyIndex nodes z) with
          | error ez => simp [ebind_err, hz]
          | ok zi => simp [ebind_ok, hz, d_separation_idx_symm]

theorem elimLoopT_nil (L : List TFactor) : elimLoopT [] L = .ok L := rfl

theorem elimLoopT_cons (v : String) (order : List String) (L : List TFactor) :
    elimLoopT (v :: order) L =
      (eliminate_variable_t L v).bind (fun L1 => elimLoopT order L1) := rfl

theorem relevantB_congr (q : String) (ev : List String) (f g : Factor)
    (h : f.variables = g.variables) : relevantB q ev f = relevantB q ev g := by
  simp [relevantB, h]

theorem sum_map_div (l : List ℚ) (c : ℚ) :
    (l.map (fun x => x / c)).sum = l.sum / c := by
  induction l with
  | nil => simp
  | cons a rest ih => simp [ih, add_div]

theorem map_div_one (l : List ℚ) : (l.map (fun x => x / (1 : ℚ))) = l := by
  induction l with
  | nil => rfl
  | cons a rest ih => simp [ih]

example (a : Nat) (l : List Nat) (h : a ∈ l) : ∃ s t, l = s ++ a :: t :=
  List.append_of_mem h

example (p : Nat → Bool) (l : List Nat) (h : l.countP p = 0) : ∀ a ∈ l, ¬ p a := by
  intro a ha
  exact List.countP_eq_zero.mp h a ha

example (p : Nat → Bool) (l1 l2 : List Nat) :
    (l1 ++ l2).countP p = l1.countP p + l2.countP p := List.countP_append p l1 l2

theorem ride (x x' : TFactor) (hvar : x'.f.variables = x.f.variables) :
    ∀ (order : List String), (∀ v ∈ order, x.f.variables.contains v = false) →
    ∀ (A B M : List TFactor), elimLoopT order (A ++ x :: B) = .ok M →
    ∃ A2 B2, M = A2 ++ x :: B2 ∧
      elimLoopT order (A ++ x' :: B) = .ok (A2 ++ x' :: B2) := by
  intro order
  induction order with
  | nil =>
      intro _ A B M hM
      rw [elimLoopT_nil] at hM
      cases hM
      exact ⟨A, B, rfl, elimLoopT_nil _⟩
  | cons v order' ih =>
      intro hv A B M hM
      have hvx : x.f.variables.contains v = false := hv v (List.mem_cons_self v order')
      have hvx' : x'.f.variables.contains v = false := by rw [hvar]; exact hvx
      have hvm : v ∉ x.f.variables := by simpa using hvx
      have hvm' : v ∉ x'.f.variables := by simpa using hvx'
      rw [elimLoopT_cons] at hM
      cases hstep : eliminate_variable_t (A ++ x :: B) v with
      | error e => rw [hstep] at hM; cases hM
      | ok L1 =>
          rw [hstep] at hM
          simp only [Except.bind] at hM
          -- unfold the step
          have hrel : (A ++ x :: B).filter (fun t => t.f.variables.contains v) =
              A.filter (fun t => t.f.variables.contains v) ++
              B.filter (fun t => t.f.variables.contains v) := by
            simp [List.filter_append, List.filter_cons, hvm]
          have hrel' : (A ++ x' :: B).filter (fun t => t.f.variables.contains v) =
              A.filter (fun t => t.f.variables.contains v) ++
              B.filter (fun t => t.f.variables.contains v) := by
            simp [List.filter_append, List.filter_cons, hvm']
          have hnew : (A ++ x :: B).filter (fun t => !(t.f.variables.contains v)) =
              A.filter (fun t => !(t.f.variables.contains v)) ++
              x :: B.filter (fun t => !(t.f.variables.contains v)) := by
            simp [List.filter_append, List.filter_cons, hvm]
          have hnew' : (A ++ x' :: B).filter (fun t => !(t.f.variables.contains v)) =
              A.filter (fun t => !(t.f.variables.contains v)) ++
              x' :: B.filter (fun t => !(t.f.variables.contains v)) := by
            simp [List.filter_append, List.filter_cons, hvm']
          rw [eliminate_variable_t, hrel, hnew] at hstep
          cases hmul : multiply_factors
              (((A.filter (fun t => t.f.variables.contains v)) ++
                (B.filter (fun t => t.f.variables.contains v))).map (·.f)) with
          | error e => rw [hmul] at hstep; cases hstep
          | ok c =>
              rw [hmul, ebind_ok] at hstep
              cases hsum : sum_out_variable c v with
              | error e => rw [hsum] at hstep; cases hstep
              | ok sm =>
                  rw [hsum, ebind_ok] at hstep
                  cases hstep
                  -- hM : elimLoopT order' (newA ++ x :: (newB ++ [⟨sm, none⟩])) = .ok M
                  have hM' : elimLoopT order'
                      (A.filter (fun t => !(t.f.variables.contains v)) ++
                        x :: (B.filter (fun t => !(t.f.variables.contains v)) ++
                          [⟨sm, none⟩])) = .ok M := by
                    simpa using hM
                  obtain ⟨A2, B2, hMdec, hrun'⟩ := ih (fun w hw => hv w (List.mem_cons_of_mem v hw))
                    _ _ _ hM'
                  refine ⟨A2, B2, hMdec, ?_⟩
                  rw [elimLoopT_cons, eliminate_variable_t, hrel', hnew', hmul, ebind_ok,
                    hsum, ebind_ok]
                  simpa using hrun'

theorem countP_filter_le (p q : TFactor → Bool) (l : List TFactor) :
    (l.filter q).countP p ≤ l.countP p := by
  induction l with
  | nil => simp
  | cons a rest ih =>
      rw [List.filter_cons]
      by_cases hq : q a = true
      · rw [if_pos hq, List.countP_cons, List.countP_cons]
        exact Nat.add_le_add ih (le_refl _)
      · rw [if_neg hq, List.countP_cons]
        exact le_trans ih (Nat.le_add_right _ _)

theorem survive : ∀ (order : List String) (L M : List TFactor),
    elimLoopT order L = .ok M →
    ∀ t ∈ M, t.origin ≠ none → t ∈ L ∧ ∀ v ∈ order, t.f.variables.contains v = false := by
  intro order
  induction order with
  | nil =>
      intro L M hM t htM _
      rw [elimLoopT_nil] at hM
      cases hM
      exact ⟨htM, by intro v hv; cases hv⟩
  | cons v order' ih =>
      intro L M hM t htM hor
      rw [elimLoopT_cons] at hM
      cases hstep : eliminate_variable_t L v with
      | error e => rw [hstep] at hM; cases hM
      | ok L1 =>
          rw [hstep] at hM
          simp only [Except.bind] at hM
          obtain ⟨htL1, hrest⟩ := ih L1 M hM t htM hor
          rw [eliminate_variable_t] at hstep
          cases hmul : multiply_factors
              ((L.filter (fun t => t.f.variables.contains v)).map (·.f)) with
          | error e => rw [hmul] at hstep; cases hstep
          | ok c =>
              rw [hmul, ebind_ok] at hstep
              cases hsum : sum_out_variable c v with
              | error e => rw [hsum] at hstep; cases hstep
              | ok sm =>
                  rw [hsum, ebind_ok] at hstep
                  cases hstep
                  rcases List.mem_append.mp htL1 with hflt | hsing
                  · obtain ⟨htL, hpred⟩ := List.mem_filter.mp hflt
                    refine ⟨htL, ?_⟩
                    intro w hw
                    rcases List.mem_cons.mp hw with rfl | hw'
                    · simpa using hpred
                    · exact hrest w hw'
                  · exfalso
                    have : t = ⟨sm, none⟩ := by simpa using hsing
                    rw [this] at hor
                    exact hor rfl

theorem elimLoopT_countP (i : Nat) : ∀ (order : List String) (L M : List TFactor),
    elimLoopT order L = .ok M →
    M.countP (fun t => t.origin == some i) ≤ L.countP (fun t => t.origin == some i) := by
  intro order
  induction order with
  | nil =>
      intro L M hM
      rw [elimLoopT_nil] at hM
      cases hM
      exact le_refl _
  | cons v order' ih =>
      intro L M hM
      rw [elimLoopT_cons] at hM
      cases hstep : eliminate_variable_t L v with
      | error e => rw [hstep] at hM; cases hM
      | ok L1 =>
          rw [hstep] at hM
          simp only [Except.bind] at hM
          have h1 := ih L1 M hM
          rw [eliminate_variable_t] at hstep
          cases hmul : multiply_factors
              ((L.filter (fun t => t.f.variables.contains v)).map (·.f)) with
          | error e => rw [hmul] at hstep; cases hstep
          | ok c =>
              rw [hmul, ebind_ok] at hstep
              cases hsum : sum_out_variable c v with
              | error e => rw [hsum] at hstep; cases hstep
              | ok sm =>
                  rw [hsum, ebind_ok] at hstep
                  cases hstep
                  refine le_trans h1 ?_
                  rw [List.countP_append]
                  have h2 : ([⟨sm, none⟩] : List TFactor).countP
                      (fun t => t.origin == some i) = 0 := by simp
                  rw [h2, Nat.add_zero]
                  exact countP_filter_le _ _ _

theorem mem_tagFrom (q : String) (ev : List String) : ∀ (fs : List Factor) (k : Nat)
    (t : TFactor), t ∈ tagFrom q ev k fs →
    ∃ j, j < fs.length ∧ t = ⟨fs.getD j ⟨[], ⟨[], []⟩⟩, some (k + j)⟩ := by
  intro fs
  induction fs with
  | nil => intro k t ht; simp [tagFrom] at ht
  | cons f rest ih =>
      intro k t ht
      rw [tagFrom] at ht
      by_cases hr : relevantB q ev f = true
      · rw [if_pos hr] at ht
        rcases List.mem_cons.mp ht with rfl | ht'
        · exact ⟨0, by simp, by simp⟩
        · obtain ⟨j, hj, hte⟩ := ih (k + 1) t ht'
          refine ⟨j + 1, by simpa using hj, ?_⟩
          rw [hte]
          have : k + 1 + j = k + (j + 1) := by omega
          simp [this]
      · rw [if_neg hr] at ht
        obtain ⟨j, hj, hte⟩ := ih (k + 1) t ht
        refine ⟨j + 1, by simpa using hj, ?_⟩
        rw [hte]
        have : k + 1 + j = k + (j + 1) := by omega
        simp [this]

theorem tagFrom_origin_ge (q : String) (ev : List String) (fs : List Factor) (k : Nat)
    (t : TFactor) (ht : t ∈ tagFrom q ev k fs) : ∀ m, m < k → t.origin ≠ some m := by
  intro m hm hcontra
  obtain ⟨j, _, rfl⟩ := mem_tagFrom q ev fs k t ht
  simp at hcontra
  omega

theorem tagFrom_countP (q : String) (ev : List String) : ∀ (fs : List Factor) (k i : Nat),
    (tagFrom q ev k fs).countP (fun t => t.origin == some i) ≤ 1 := by
  intro fs
  induction fs with
  | nil => intro k i; simp [tagFrom]
  | cons f rest ih =>
      intro k i
      rw [tagFrom]
      by_cases hr : relevantB q ev f = true
      · rw [if_pos hr, List.countP_cons]
        by_cases hik : i = k
        · have hz : (tagFrom q ev (k + 1) rest).countP (fun t => t.origin == some i) = 0 := by
            rw [List.countP_eq_zero]
            intro t ht
            have := tagFrom_origin_ge q ev rest (k + 1) t ht i (by omega)
            simpa using this
          rw [hz]
          split <;> omega
        · have hpred : (((⟨f, some k⟩ : TFactor)).origin == some i) = false := by
            simp only [beq_eq_false_iff_ne, ne_eq, Option.some.injEq]
            omega
          rw [hpred]
          have hle := ih (k + 1) i
          simpa using hle
      · rw [if_neg hr]
        exact ih (k + 1) i

theorem tagFrom_set (q : String) (ev : List String) : ∀ (fs : List Factor) (k i : Nat)
    (g : Factor), i < fs.length → g.variables = (fs.getD i ⟨[], ⟨[], []⟩⟩).variables →
    tagFrom q ev k (fs.set i g) =
      (tagFrom q ev k fs).map
        (fun t => if t.origin == some (k + i) then ⟨g, t.origin⟩ else t) := by
  intro fs
  induction fs with
  | nil => intro k i g hi _; simp at hi
  | cons f rest ih =>
      intro k i g hi hvars
      cases i with
      | zero =>
          simp only [List.set_cons_zero]
          have hrg : relevantB q ev g = relevantB q ev f :=
            relevantB_congr q ev g f (by simpa using hvars)
          have hmapid : (tagFrom q ev (k + 1) rest).map
              (fun t => if t.origin == some (k + 0) then ⟨g, t.origin⟩ else t) =
              tagFrom q ev (k + 1) rest := by
            conv_rhs => rw [← List.map_id (tagFrom q ev (k + 1) rest)]
            apply List.map_congr_left
            intro t ht
            have hne := tagFrom_origin_ge q ev rest (k + 1) t ht (k + 0) (by omega)
            have : (t.origin == some (k + 0)) = false := by
              rcases horig : t.origin with _ | m
              · simp
              · rw [horig] at hne
                simp only [beq_eq_false_iff_ne, ne_eq, Option.some.injEq]
                intro hcontra
                exact hne (by rw [hcontra])
            rw [this]
            simp [id]
          rw [tagFrom, tagFrom]
          by_cases hr : relevantB q ev f = true
          · rw [if_pos hr, if_pos (by rw [hrg]; exact hr)]
            rw [List.map_cons, hmapid]
            have : ((⟨f, some k⟩ : TFactor).origin == some (k + 0)) = true := by simp
            rw [this]
            simp
          · rw [if_neg hr, if_neg (by rw [hrg]; exact hr)]
            rw [hmapid]
      | succ j =>
          simp only [List.set_cons_succ]
          have hj : j < rest.length := by simpa using hi
          have hvars' : g.variables = (rest.getD j ⟨[], ⟨[], []⟩⟩).variables := by
            simpa using hvars
          have hih := ih (k + 1) j g hj hvars'
          have hkey : k + 1 + j = k + (j + 1) := by omega
          rw [hkey] at hih
          rw [tagFrom, tagFrom]
          by_cases hr : relevantB q ev f = true
          · rw [if_pos hr, if_pos hr, List.map_cons, hih]
            have : ((⟨f, some k⟩ : TFactor).origin == some (k + (j + 1))) = false := by
              simp only [beq_eq_false_iff_ne, ne_eq, Option.some.injEq]
              omega
            rw [this]
            simp
          · rw [if_neg hr, if_neg hr, hih]

theorem VE_full_errloop (fs : List Factor) (q : String) (ev order : List String)
    (e : PyError) (hL : elimLoopT order (tagFrom q ev 0 fs) = .error e) :
    VE_full fs q ev order = .error e := by
  unfold VE_full
  rw [hL]
  rfl

theorem VE_full_nil (fs : List Factor) (q : String) (ev order : List String)
    (hL : elimLoopT order (tagFrom q ev 0 fs) = .ok []) :
    VE_full fs q ev order = .error .indexError := by
  unfold VE_full
  rw [hL]
  rfl

theorem VE_full_cons (fs : List Factor) (q : String) (ev order : List String)
    (t : TFactor) (rest : List TFactor)
    (hL : elimLoopT order (tagFrom q ev 0 fs) = .ok (t :: rest)) :
    VE_full fs q ev order =
      if t.f.values.data.sum = 0 then .ok (t.f, fs)
      else
        match t.origin with
        | none => .ok (⟨t.f.variables, ⟨t.f.values.shape,
            t.f.values.data.map (· / t.f.values.data.sum)⟩⟩, fs)
        | some i => .ok (⟨t.f.variables, ⟨t.f.values.shape,
            t.f.values.data.map (· / t.f.values.data.sum)⟩⟩,
            fs.set i ⟨t.f.variables, ⟨t.f.values.shape,
              t.f.values.data.map (· / t.f.values.data.sum)⟩⟩) := by
  unfold VE_full
  rw [hL]
  rfl

/-- C4 amended: calling `variable_elimination` twice with the same query,
evidence and set-iteration order does return identical output both times —
but NOT because the inputs are left unchanged: the first call normalizes the
surviving factor's values array in place (dividing by its total), so the
second call receives a mutated factor list; its surviving factor then sums
to exactly 1 and renormalizing divides by 1, reproducing the first result.
`VE_full fs q ev order = .ok (r, fs')` means: the call returns `r` and
leaves the input factor list as `fs'`. -/
theorem c4_infer_twice_same_output (fs : List Factor) (q : String) (ev order : List String)
    (r1 : Factor) (fs1 : List Factor) (p : Factor × List Factor)
    (h1 : VE_full fs q ev order = .ok (r1, fs1))
    (h2 : VE_full fs1 q ev order = .ok p) : p.1 = r1 := by
  cases hL : elimLoopT order (tagFrom q ev 0 fs) with
  | error e => rw [VE_full_errloop fs q ev order e hL] at h1; cases h1
  | ok L =>
    cases L with
    | nil => rw [VE_full_nil fs q ev order hL] at h1; cases h1
    | cons t rest =>
      rw [VE_full_cons fs q ev order t rest hL] at h1
      by_cases htot : t.f.values.data.sum = 0
      · -- zero-total: no mutation, second call is byte-for-byte the first
        rw [if_pos htot] at h1
        have hp : (t.f, fs) = (r1, fs1) := by injection h1
        rw [Prod.mk.injEq] at hp
        obtain ⟨hr, hfs⟩ := hp
        rw [← hfs, VE_full_cons fs q ev order t rest hL, if_pos htot] at h2
        have hp2 : (t.f, fs) = p := by injection h2
        rw [← hp2, hr]
      · rw [if_neg htot] at h1
        cases horig : t.origin with
        | none =>
          rw [horig] at h1
          have hp : (⟨t.f.variables, ⟨t.f.values.shape,
              t.f.values.data.map (· / t.f.values.data.sum)⟩⟩, fs) = (r1, fs1) := by
            injection h1
          rw [Prod.mk.injEq] at hp
          obtain ⟨hr, hfs⟩ := hp
          rw [← hfs, VE_full_cons fs q ev order t rest hL, if_neg htot, horig] at h2
          have hp2 : (⟨t.f.variables, ⟨t.f.values.shape,
              t.f.values.data.map (· / t.f.values.data.sum)⟩⟩, fs) = p := by injection h2
          rw [← hp2, hr]
        | some i =>
          rw [horig] at h1
          have hp : (⟨t.f.variables, ⟨t.f.values.shape,
              t.f.values.data.map (· / t.f.values.data.sum)⟩⟩,
              fs.set i ⟨t.f.variables, ⟨t.f.values.shape,
                t.f.values.data.map (· / t.f.values.data.sum)⟩⟩) = (r1, fs1) := by
            injection h1
          rw [Prod.mk.injEq] at hp
          obtain ⟨hr, hfs⟩ := hp
          -- abbreviate the normalized factor
          set NF : Factor := ⟨t.f.variables, ⟨t.f.values.shape,
            t.f.values.data.map (· / t.f.values.data.sum)⟩⟩ with hNF
          -- facts about t inside the tag list
          have hsurv := survive order (tagFrom q ev 0 fs) (t :: rest) hL t
            (List.mem_cons_self t rest) (by rw [horig]; simp)
          obtain ⟨j, hjlen, htj⟩ := mem_tagFrom q ev fs 0 t hsurv.1
          have hij : i = j := by
            have := horig
            rw [htj] at this
            simp at this
            omega
          subst hij
          have hilen : i < fs.length := hjlen
          have htf : t.f = fs.getD i ⟨[], ⟨[], []⟩⟩ := by rw [htj]
          have horigt : t.origin = some i := horig
          -- decompose the tag list around t
          obtain ⟨A, B, hTdec⟩ := List.append_of_mem hsurv.1
          -- countP facts
          have hcntT : (tagFrom q ev 0 fs).countP (fun u => u.origin == some i) ≤ 1 :=
            tagFrom_countP q ev fs 0 i
          have hpredt : (t.origin == some i) = true := by
            simp [horigt]
          have hcntAB : A.countP (fun u => u.origin == some i) = 0 ∧
              B.countP (fun u => u.origin == some i) = 0 := by
            rw [hTdec, List.countP_append, List.countP_cons, hpredt] at hcntT
            simp at hcntT
            constructor <;> omega
          -- the mutated tag list
          have hNFvars : NF.variables = (fs.getD i ⟨[], ⟨[], []⟩⟩).variables := by
            rw [hNF, ← htf]
          have htags : tagFrom q ev 0 (fs.set i NF) =
              A ++ (⟨NF, some i⟩ : TFactor) :: B := by
            rw [tagFrom_set q ev fs 0 i NF hilen hNFvars, hTdec]
            rw [List.map_append, List.map_cons]
            have hA : A.map (fun u => if u.origin == some (0 + i) then
                (⟨NF, u.origin⟩ : TFactor) else u) = A := by
              conv_rhs => rw [← List.map_id A]
              apply List.map_congr_left
              intro a ha
              have hpa : (a.origin == some i) = false := by
                have := List.countP_eq_zero.mp hcntAB.1 a ha
                simpa using this
              simp only [Nat.zero_add, hpa]
              simp [id]
            have hB : B.map (fun u => if u.origin == some (0 + i) then
                (⟨NF, u.origin⟩ : TFactor) else u) = B := by
              conv_rhs => rw [← List.map_id B]
              apply List.map_congr_left
              intro a ha
              have hpa : (a.origin == some i) = false := by
                have := List.countP_eq_zero.mp hcntAB.2 a ha
                simpa using this
              simp only [Nat.zero_add, hpa]
              simp [id]
            rw [hA, hB]
            have hphit : (if t.origin == some (0 + i) then (⟨NF, t.origin⟩ : TFactor) else t) =
                (⟨NF, some i⟩ : TFactor) := by
              simp only [Nat.zero_add, hpredt, horigt]
              simp
            rw [hphit]
          -- let t ride through the loop as the normalized factor
          have hride := ride t (⟨NF, some i⟩ : TFactor) (by rw [hNF]) order hsurv.2
            A B (t :: rest) (by rw [← hTdec]; exact hL)
          obtain ⟨A2, B2, hMdec, hrun⟩ := hride
          -- A2 must be empty
          have hA2nil : A2 = [] ∧ B2 = rest := by
            cases A2 with
            | nil =>
                refine ⟨rfl, ?_⟩
                simpa using hMdec.symm
            | cons a A3 =>
                exfalso
                have hMle := elimLoopT_countP i order (tagFrom q ev 0 fs) (t :: rest) hL
                have hM1 : (t :: rest).countP (fun u => u.origin == some i) ≤ 1 :=
                  le_trans hMle hcntT
                have hconsEq : t :: rest = a :: (A3 ++ t :: B2) := by simpa using hMdec
                rw [List.cons.injEq] at hconsEq
                obtain ⟨hta, hrest⟩ := hconsEq
                have htmem : t ∈ rest := by rw [hrest]; simp
                have hpos : 0 < rest.countP (fun u => u.origin == some i) := by
                  rw [List.countP_pos_iff]
                  exact ⟨t, htmem, hpredt⟩
                have hstep1 : (t :: rest).countP (fun u => u.origin == some i) =
                    rest.countP (fun u => u.origin == some i) + 1 := by
                  rw [List.countP_cons, hpredt]
                  norm_num
                rw [hstep1] at hM1
                omega
          obtain ⟨hA2, hB2⟩ := hA2nil
          subst hA2
          rw [hB2] at hrun
          -- run the second call
          have hL2 : elimLoopT order (tagFrom q ev 0 fs1) = .ok ((⟨NF, some i⟩ : TFactor) :: rest) := by
            rw [← hfs, htags]
            simpa using hrun
          rw [VE_full_cons fs1 q ev order (⟨NF, some i⟩ : TFactor) rest hL2] at h2
          have hsum1 : (⟨NF, some i⟩ : TFactor).f.values.data.sum = 1 := by
            show NF.values.data.sum = 1
            rw [hNF]
            show (t.f.values.data.map (· / t.f.values.data.sum)).sum = 1
            rw [sum_map_div]
            exact div_self htot
          rw [hsum1] at h2
          rw [if_neg one_ne_zero] at h2
          -- the origin of the rider is some i
          have h2' : Except.ok ((⟨(⟨NF, some i⟩ : TFactor).f.variables,
              ⟨(⟨NF, some i⟩ : TFactor).f.values.shape,
                (⟨NF, some i⟩ : TFactor).f.values.data.map (· / 1)⟩⟩ : Factor),
              fs1.set i ⟨(⟨NF, some i⟩ : TFactor).f.variables,
                ⟨(⟨NF, some i⟩ : TFactor).f.values.shape,
                  (⟨NF, some i⟩ : TFactor).f.values.data.map (· / 1)⟩⟩) = Except.ok p := h2
          have hmap1 : ((⟨NF, some i⟩ : TFactor).f.values.data.map (· / 1)) = NF.values.data := by
            show (NF.values.data.map (· / (1 : ℚ))) = NF.values.data
            exact map_div_one NF.values.data
          rw [hmap1] at h2'
          have hfinal : ((⟨NF.variables, ⟨NF.values.shape, NF.values.data⟩⟩ : Factor),
              fs1.set i ⟨NF.variables, ⟨NF.values.shape, NF.values.data⟩⟩) = p := by
            injection h2'
          rw [← hfinal]
          show (⟨NF.variables, ⟨NF.values.shape, NF.values.data⟩⟩ : Factor) = r1
          rw [← hr]

/-- C4 counterexample: the first `variable_elimination` call on the alarm
network does NOT leave its input factor list unchanged — the
`['Alarm', 'JohnCalls']` factor (index 3) has been divided by 2 in place. -/
theorem c4_first_call_mutates_input :
    Except.map Prod.snd (VE_full demoFactors "Alarm" demoEvKeys ["Burglary", "Earthquake"]) ≠
      .ok demoFactors := by
  rw [ve_demo_order1, emap_ok]
  intro h
  injection h with hlists
  rw [demoMutated, demoFactors] at hlists
  simp only [List.cons.injEq] at hlists
  have hfac := hlists.2.2.2.1
  rw [demoVEResult] at hfac
  simp only [Factor.mk.injEq, NDArray.mk.injEq, List.cons.injEq] at hfac
  have h19 : (19/40 : ℚ) = 95/100 := hfac.2.2.1
  norm_num at h19

/-- C4 witness. -/
theorem c4_infer_twice_witness :
    ((demoVEResult, demoMutated) : Factor × List Factor).1 = demoVEResult :=
  c4_infer_twice_same_output demoFactors "Alarm" demoEvKeys ["Burglary", "Earthquake"]
    demoVEResult demoMutated (demoVEResult, demoMutated) ve_demo_order1 ve_demo_mutated
